import Mathlib

/-!
Shallow embedding of `cevast/certdb/cert_file_db.py` (CertFileDB): a local
certificate store mapping fingerprints to PEM content, with a loose-file
overlay per shard directory, per-shard zip archives, and an in-memory
transaction set (the Journal) of shard locations holding uncommitted files.

The file system is modelled as two association lists: `dirs` maps a shard
directory path to its listing (filename to content), `zips` maps a zip file
path to its entry list (entry name to content).  Operations that can raise
uncaught IO errors in Python (listing or deleting a missing directory,
opening a file in a missing directory) return `none` / an `ioError`.
-/

namespace CertDB

/-- Equality of `Except` results is decidable when both sides are. -/
instance {ε α : Type} [DecidableEq ε] [DecidableEq α] : DecidableEq (Except ε α) :=
  fun a b =>
    match a, b with
    | .ok x, .ok y =>
      if h : x = y then isTrue (by rw [h]) else isFalse (by intro hc; cases hc; exact h rfl)
    | .error x, .error y =>
      if h : x = y then isTrue (by rw [h]) else isFalse (by intro hc; cases hc; exact h rfl)
    | .ok _, .error _ => isFalse (by intro hc; cases hc)
    | .error _, .ok _ => isFalse (by intro hc; cases hc)

/-- Association-list lookup keyed by strings (first binding wins, like a
file-system path lookup). -/
def alookup {α : Type} (k : String) : List (String × α) → Option α
  | [] => none
  | (k', v) :: rest => if k' = k then some v else alookup k rest

/-- Set the binding of key `k` to `v`, dropping any previous binding. -/
def aset {α : Type} (k : String) (v : α) (l : List (String × α)) : List (String × α) :=
  (k, v) :: l.filter (fun p => p.1 != k)

/-- Remove every binding of key `k`. -/
def aerase {α : Type} (k : String) (l : List (String × α)) : List (String × α) :=
  l.filter (fun p => p.1 != k)

/-- Errors of the store, mirroring `CertNotAvailableError`, `CertInvalidError`
and an uncaught file-system error. -/
inductive CertDBError where
  | certNotAvailable (id : String)
  | certInvalid (msg : String)
  | ioError (path : String)
deriving DecidableEq, Repr

/-- State of a `CertFileDB` instance together with the part of the file system
it owns: `cert_storage` is the root path (`<storage>/certs`), `dirs` the loose
shard directories, `zips` the shard archives, `transaction` the Journal. -/
structure CertFileDB where
  cert_storage : String
  dirs : List (String × List (String × String))
  zips : List (String × List (String × String))
  transaction : List String
deriving DecidableEq, Repr

/-- `CertFileDBReadOnly._id_to_filename`: `id + '.pem'`. -/
def id_to_filename (id : String) : String := id ++ ".pem"

/-- `CertFileDBReadOnly._get_cert_location`:
`os.path.join(self._cert_storage, id[:2], id[:4])`. -/
def CertFileDB.get_cert_location (s : CertFileDB) (id : String) : String :=
  s.cert_storage ++ "/" ++ id.take 2 ++ "/" ++ id.take 4

/-- Content of the loose file `fname` inside directory `loc`, when both
exist (`open(...).read()` succeeding / `os.path.exists`). -/
def CertFileDB.fileContent (s : CertFileDB) (loc fname : String) : Option String :=
  (alookup loc s.dirs).bind (fun listing => alookup fname listing)

/-- Entry content of `fname` inside the zip file `zipfile`, when both exist. -/
def CertFileDB.zipContent (s : CertFileDB) (zipfile fname : String) : Option String :=
  (alookup zipfile s.zips).bind (fun entries => alookup fname entries)

/-- `CertFileDBReadOnly.get`: with an open transaction first try the loose
file, then try the zip entry, else raise `CertNotAvailableError`. -/
def CertFileDB.get (s : CertFileDB) (id : String) : Except CertDBError String :=
  let loc := s.get_cert_location id
  let filename := id_to_filename id
  let fromTransaction : Option String :=
    if s.transaction.isEmpty then none else s.fileContent loc filename
  match fromTransaction with
  | some content => .ok content
  | none =>
    match s.zipContent (loc ++ ".zip") filename with
    | some content => .ok content
    | none => .error (.certNotAvailable id)

/-- `CertFileDBReadOnly.export`: same resolution order as `get`, but copies
the file into `target_dir`.  The target directory is outside the store's
state, so the result records the produced path and the copied content. -/
def CertFileDB.export (s : CertFileDB) (id target_dir : String) :
    Except CertDBError (String × String) :=
  let loc := s.get_cert_location id
  let filename := id_to_filename id
  let fromTransaction : Option String :=
    if s.transaction.isEmpty then none else s.fileContent loc filename
  match fromTransaction with
  | some content => .ok (target_dir ++ "/" ++ filename, content)
  | none =>
    match s.zipContent (loc ++ ".zip") filename with
    | some content => .ok (target_dir ++ "/" ++ filename, content)
    | none => .error (.certNotAvailable id)

/-- `CertFileDBReadOnly.exists`: overlay check only with an open transaction,
then the zip check, else `False`. -/
def CertFileDB.exists (s : CertFileDB) (id : String) : Bool :=
  let loc := s.get_cert_location id
  (!s.transaction.isEmpty && (s.fileContent loc (id_to_filename id)).isSome)
    || (s.zipContent (loc ++ ".zip") (id_to_filename id)).isSome

/-- `CertFileDBReadOnly.exists_all`: loop with early `return False`. -/
def CertFileDB.exists_all (s : CertFileDB) : List String → Bool
  | [] => true
  | id :: rest => if s.exists id then s.exists_all rest else false

/-- `CertFileDB._create_cert_location`: `os.makedirs(loc, exist_ok=True)`
unless `loc` is already journaled. -/
def CertFileDB.create_cert_location (s : CertFileDB) (id : String) : CertFileDB :=
  let loc := s.get_cert_location id
  if loc ∈ s.transaction then s
  else if (alookup loc s.dirs).isSome then s
  else { s with dirs := (loc, []) :: s.dirs }

/-- `open(cert_file, 'w')` followed by `write`: fails when the directory is
missing, otherwise (over)writes the file. -/
def CertFileDB.writeFile (s : CertFileDB) (loc fname content : String) :
    Option CertFileDB :=
  match alookup loc s.dirs with
  | none => none
  | some listing => some { s with dirs := aset loc (aset fname content listing) s.dirs }

/-- `CertFileDB.insert`: reject empty id or cert, resolve and create the
shard directory, no-op when the loose file already exists, else write the
file and journal the shard location. -/
def CertFileDB.insert (s : CertFileDB) (id cert : String) :
    Except CertDBError CertFileDB :=
  if id = "" ∨ cert = "" then
    .error (.certInvalid ("id <" ++ id ++ "> or cert <" ++ cert ++ "> invalid"))
  else
    let s1 := s.create_cert_location id
    let loc := s1.get_cert_location id
    let filename := id_to_filename id
    if (s1.fileContent loc filename).isSome then .ok s1
    else
      match s1.writeFile loc filename cert with
      | none => .error (.ioError loc)
      | some s2 =>
        .ok { s2 with transaction :=
                if loc ∈ s2.transaction then s2.transaction else loc :: s2.transaction }

/-- `CertFileDB.persist_and_clean_storage_target`: open (append) or create the
shard's zip, list the loose directory, when appending skip names already in
the zip's namelist, write the remaining files, then delete the directory.
`os.listdir` on a missing directory raises, modelled as `none`. -/
def CertFileDB.persist_and_clean_storage_target (s : CertFileDB) (target : String) :
    Option CertFileDB :=
  let zipfilename := target ++ ".zip"
  match alookup target s.dirs with
  | none => none
  | some certs =>
    let newEntries :=
      match alookup zipfilename s.zips with
      | some entries => entries ++ certs.filter (fun c => (alookup c.1 entries).isNone)
      | none => certs
    some { s with zips := aset zipfilename newEntries s.zips,
                  dirs := aerase target s.dirs }

/-- `CertFileDB.clean_storage_target` on a single target:
`shutil.rmtree(target)`, raising when the directory is missing. -/
def CertFileDB.clean_storage_target (s : CertFileDB) (target : String) :
    Option CertFileDB :=
  if (alookup target s.dirs).isSome then some { s with dirs := aerase target s.dirs }
  else none

/-- The `commit` loop over the journaled targets (cores = 1 branch). -/
def CertFileDB.commitTargets (s : CertFileDB) : List String → Option CertFileDB
  | [] => some s
  | t :: ts =>
    match s.persist_and_clean_storage_target t with
    | none => none
    | some s' => s'.commitTargets ts

/-- `CertFileDB.commit`: with `cores > 1` the multiprocessing branch in the
source is an unfinished stub (its loop body is `pass`), so nothing is
persisted; either way the transaction set is cleared at the end. -/
def CertFileDB.commit (s : CertFileDB) (cores : Nat) : Except CertDBError CertFileDB :=
  if cores > 1 then
    .ok { s with transaction := [] }
  else
    match s.commitTargets s.transaction with
    | none => .error (.ioError "commit")
    | some s' => .ok { s' with transaction := [] }

/-- The `clean_storage_target` recursion over a set of targets. -/
def CertFileDB.rollbackTargets (s : CertFileDB) : List String → Option CertFileDB
  | [] => some s
  | t :: ts =>
    match s.clean_storage_target t with
    | none => none
    | some s' => s'.rollbackTargets ts

/-- `CertFileDB.rollback`: delete every journaled directory, clear the
transaction set. -/
def CertFileDB.rollback (s : CertFileDB) : Except CertDBError CertFileDB :=
  match s.rollbackTargets s.transaction with
  | none => .error (.ioError "rollback")
  | some s' => .ok { s' with transaction := [] }

/-- Journal validity: every journaled shard directory exists on disk.  This
holds in every state reachable through the API and is how Python's
`shutil.rmtree` / `open` succeed during `rollback` / `insert`. -/
def CertFileDB.journalValid (s : CertFileDB) : Prop :=
  ∀ t ∈ s.transaction, (alookup t s.dirs).isSome = true

instance (s : CertFileDB) : Decidable s.journalValid := by
  unfold CertFileDB.journalValid; infer_instance

/-- Store with an empty `certs` root, no archives, empty Journal. -/
def emptyStore : CertFileDB :=
  { cert_storage := "storage/certs", dirs := [], zips := [], transaction := [] }

/-- Store with one journaled shard directory holding one loose file and no
archive: the state right after `insert("aabbccdd", "PEM")` on `emptyStore`. -/
def dirtyStore : CertFileDB :=
  { cert_storage := "storage/certs",
    dirs := [("storage/certs/aa/aabb", [("aabbccdd.pem", "PEM")])],
    zips := [],
    transaction := ["storage/certs/aa/aabb"] }

/-- Store whose shard archive already holds `aabbccdd` with content `OLD`,
with no loose files and an empty Journal. -/
def archivedOldStore : CertFileDB :=
  { cert_storage := "storage/certs",
    dirs := [],
    zips := [("storage/certs/aa/aabb.zip", [("aabbccdd.pem", "OLD")])],
    transaction := [] }

/-- The state `insert("aabbccdd", "NEW")` produces from `archivedOldStore`:
the loose file is written and journaled although the id is archived. -/
def archivedOldStore1 : CertFileDB :=
  { cert_storage := "storage/certs",
    dirs := [("storage/certs/aa/aabb", [("aabbccdd.pem", "NEW")])],
    zips := [("storage/certs/aa/aabb.zip", [("aabbccdd.pem", "OLD")])],
    transaction := ["storage/certs/aa/aabb"] }

/-- Store holding a stale loose file in an unjournaled shard directory (as
left by a crash between compaction and directory deletion): the Journal is
empty but the loose file exists. -/
def staleStore : CertFileDB :=
  { cert_storage := "storage/certs",
    dirs := [("storage/certs/aa/aabb", [("aabbccdd.pem", "PEM")])],
    zips := [],
    transaction := [] }

theorem alookup_nil {α : Type} (k : String) : alookup (α := α) k [] = none := rfl

theorem alookup_cons {α : Type} (k k' : String) (v : α) (l : List (String × α)) :
    alookup k ((k', v) :: l) = if k' = k then some v else alookup k l := rfl

theorem alookup_filter {α : Type} (f : String → Bool) {k : String}
    (h : f k = true) (l : List (String × α)) :
    alookup k (l.filter (fun c => f c.1)) = alookup k l := by
  induction l with
  | nil => rfl
  | cons p rest ih =>
    obtain ⟨k', v⟩ := p
    by_cases hk : k' = k
    · subst hk
      simp [List.filter, h, alookup_cons]
    · rw [List.filter]
      cases hf : f k' with
      | true => simp [alookup_cons, hk, ih]
      | false => simp [alookup_cons, hk, ih]

theorem alookup_aset_self {α : Type} (k : String) (v : α) (l : List (String × α)) :
    alookup k (aset k v l) = some v := by
  simp [aset, alookup_cons]

theorem alookup_aset_ne {α : Type} {k k' : String} (h : k' ≠ k) (v : α)
    (l : List (String × α)) :
    alookup k (aset k' v l) = alookup k l := by
  have hb : (fun p : String × α => p.1 != k') = (fun p : String × α => p.1 != k') := rfl
  rw [aset, alookup_cons, if_neg h]
  exact alookup_filter (fun x => x != k') (by simpa using Ne.symm h) l

theorem alookup_aerase_self {α : Type} (k : String) (l : List (String × α)) :
    alookup k (aerase k l) = none := by
  induction l with
  | nil => rfl
  | cons p rest ih =>
    obtain ⟨k', v⟩ := p
    rw [aerase, List.filter_cons]
    by_cases hk : k' = k
    · subst hk
      simp only [bne_self_eq_false, if_false]
      simpa [aerase] using ih
    · have hb : ((k', v).1 != k) = true := by simpa using hk
      rw [if_pos hb, alookup_cons, if_neg hk]
      simpa [aerase] using ih

theorem alookup_aerase_ne {α : Type} {k k' : String} (h : k' ≠ k)
    (l : List (String × α)) :
    alookup k (aerase k' l) = alookup k l :=
  alookup_filter (fun x => x != k') (by simpa using Ne.symm h) l

theorem alookup_append_some {α : Type} {k : String} {v : α}
    {l1 : List (String × α)} (l2 : List (String × α)) (h : alookup k l1 = some v) :
    alookup k (l1 ++ l2) = some v := by
  induction l1 with
  | nil => simp [alookup] at h
  | cons p rest ih =>
    obtain ⟨k', v'⟩ := p
    rw [alookup_cons] at h
    by_cases hk : k' = k
    · rw [List.cons_append, alookup_cons, if_pos hk]
      rwa [if_pos hk] at h
    · rw [List.cons_append, alookup_cons, if_neg hk]
      rw [if_neg hk] at h
      exact ih h

theorem alookup_append_none {α : Type} {k : String}
    {l1 : List (String × α)} (l2 : List (String × α)) (h : alookup k l1 = none) :
    alookup k (l1 ++ l2) = alookup k l2 := by
  induction l1 with
  | nil => rfl
  | cons p rest ih =>
    obtain ⟨k', v'⟩ := p
    rw [alookup_cons] at h
    by_cases hk : k' = k
    · rw [if_pos hk] at h; cases h
    · rw [List.cons_append, alookup_cons, if_neg hk]
      rw [if_neg hk] at h
      exact ih h

theorem alookup_eq_none_iff {α : Type} (k : String) (l : List (String × α)) :
    alookup k l = none ↔ k ∉ l.map Prod.fst := by
  induction l with
  | nil => simp [alookup]
  | cons p rest ih =>
    obtain ⟨k', v⟩ := p
    by_cases hk : k' = k
    · subst hk; simp [alookup_cons]
    · simp [alookup_cons, hk, ih, Ne.symm hk]

/-- Appending the fixed suffix `.zip` to distinct shard paths yields distinct
zip paths. -/
theorem zipname_inj {a b : String} (h : a ++ ".zip" = b ++ ".zip") : a = b := by
  apply String.ext
  have hd := congrArg String.data h
  rw [String.data_append a ".zip", String.data_append b ".zip"] at hd
  exact List.append_cancel_right hd

theorem persist_eq (s : CertFileDB) (t : String) {s' : CertFileDB}
    (h : s.persist_and_clean_storage_target t = some s') :
    ∃ certs, alookup t s.dirs = some certs ∧
      s' = { s with
              zips := aset (t ++ ".zip")
                (match alookup (t ++ ".zip") s.zips with
                 | some entries =>
                   entries ++ certs.filter (fun c => (alookup c.1 entries).isNone)
                 | none => certs) s.zips,
              dirs := aerase t s.dirs } := by
  unfold CertFileDB.persist_and_clean_storage_target at h
  cases hd : alookup t s.dirs with
  | none => rw [hd] at h; cases h
  | some certs =>
    rw [hd] at h
    exact ⟨certs, rfl, (Option.some.inj h).symm⟩

theorem persist_isSome (s : CertFileDB) (t : String)
    (hd : (alookup t s.dirs).isSome = true) :
    ∃ s', s.persist_and_clean_storage_target t = some s' := by
  obtain ⟨certs, hc⟩ := Option.isSome_iff_exists.mp hd
  unfold CertFileDB.persist_and_clean_storage_target
  rw [hc]
  exact ⟨_, rfl⟩

theorem persist_fields (s : CertFileDB) (t : String) {s' : CertFileDB}
    (h : s.persist_and_clean_storage_target t = some s') :
    s'.cert_storage = s.cert_storage ∧ s'.transaction = s.transaction := by
  obtain ⟨certs, _, rfl⟩ := persist_eq s t h
  exact ⟨rfl, rfl⟩

theorem persist_dirs_self (s : CertFileDB) (t : String) {s' : CertFileDB}
    (h : s.persist_and_clean_storage_target t = some s') :
    alookup t s'.dirs = none := by
  obtain ⟨certs, _, rfl⟩ := persist_eq s t h
  exact alookup_aerase_self t s.dirs

theorem persist_dirs_frame (s : CertFileDB) {t t' : String} {s' : CertFileDB}
    (h : s.persist_and_clean_storage_target t = some s') (hne : t ≠ t') :
    alookup t' s'.dirs = alookup t' s.dirs := by
  obtain ⟨certs, _, rfl⟩ := persist_eq s t h
  exact alookup_aerase_ne hne s.dirs

theorem persist_zips_frame (s : CertFileDB) {t t' : String} {s' : CertFileDB}
    (h : s.persist_and_clean_storage_target t = some s') (hne : t ≠ t') :
    alookup (t' ++ ".zip") s'.zips = alookup (t' ++ ".zip") s.zips := by
  obtain ⟨certs, _, rfl⟩ := persist_eq s t h
  exact alookup_aset_ne (fun hz => hne (zipname_inj hz)) _ s.zips

theorem persist_hit (s : CertFileDB) (t fname c : String) {s' : CertFileDB}
    {L : List (String × String)}
    (h : s.persist_and_clean_storage_target t = some s')
    (hL : alookup t s.dirs = some L)
    (hfc : alookup fname L = some c)
    (hz : ∀ E, alookup (t ++ ".zip") s.zips = some E → alookup fname E = none) :
    ∃ E', alookup (t ++ ".zip") s'.zips = some E' ∧ alookup fname E' = some c := by
  obtain ⟨certs, hd, rfl⟩ := persist_eq s t h
  have hcerts : certs = L := Option.some.inj (hd ▸ hL ▸ rfl)
  subst hcerts
  refine ⟨_, alookup_aset_self _ _ _, ?_⟩
  cases hez : alookup (t ++ ".zip") s.zips with
  | none => simpa only [hez] using hfc
  | some E =>
    have hEnone := hz E hez
    have hfil : ((alookup fname E).isNone) = true := by rw [hEnone]; rfl
    simp only [hez]
    rw [alookup_append_none _ hEnone,
        alookup_filter (fun k => (alookup k E).isNone) hfil certs]
    exact hfc

theorem persist_keep (s : CertFileDB) (t fname c : String) {s' : CertFileDB}
    {E : List (String × String)}
    (h : s.persist_and_clean_storage_target t = some s')
    (hE : alookup (t ++ ".zip") s.zips = some E)
    (hfc : alookup fname E = some c) :
    ∃ E', alookup (t ++ ".zip") s'.zips = some E' ∧ alookup fname E' = some c := by
  obtain ⟨certs, _, rfl⟩ := persist_eq s t h
  refine ⟨_, alookup_aset_self _ _ _, ?_⟩
  simp only [hE]
  exact alookup_append_some _ hfc

theorem commitTargets_fields :
    ∀ (ts : List String) (s s' : CertFileDB), s.commitTargets ts = some s' →
      s'.cert_storage = s.cert_storage ∧ s'.transaction = s.transaction := by
  intro ts
  induction ts with
  | nil => intro s s' h; cases h; exact ⟨rfl, rfl⟩
  | cons t ts ih =>
    intro s s' h
    unfold CertFileDB.commitTargets at h
    cases hp : s.persist_and_clean_storage_target t with
    | none => rw [hp] at h; cases h
    | some s1 =>
      rw [hp] at h
      obtain ⟨h1, h2⟩ := ih s1 s' h
      obtain ⟨h3, h4⟩ := persist_fields s t hp
      exact ⟨h1.trans h3, h2.trans h4⟩

theorem commitTargets_frame {t : String} :
    ∀ (ts : List String) (s s' : CertFileDB), s.commitTargets ts = some s' →
      t ∉ ts →
      alookup (t ++ ".zip") s'.zips = alookup (t ++ ".zip") s.zips ∧
        alookup t s'.dirs = alookup t s.dirs := by
  intro ts
  induction ts with
  | nil => intro s s' h _; cases h; exact ⟨rfl, rfl⟩
  | cons u ts ih =>
    intro s s' h hnot
    unfold CertFileDB.commitTargets at h
    cases hp : s.persist_and_clean_storage_target u with
    | none => rw [hp] at h; cases h
    | some s1 =>
      rw [hp] at h
      have hne : u ≠ t := fun he => hnot (he ▸ List.mem_cons_self u ts)
      have hrest : t ∉ ts := fun hm => hnot (List.mem_cons_of_mem u hm)
      obtain ⟨h1, h2⟩ := ih s1 s' h hrest
      exact ⟨h1.trans (persist_zips_frame s hp hne),
             h2.trans (persist_dirs_frame s hp hne)⟩

theorem commitTargets_isSome :
    ∀ (ts : List String) (s : CertFileDB), ts.Nodup →
      (∀ u ∈ ts, (alookup u s.dirs).isSome = true) →
      ∃ s', s.commitTargets ts = some s' := by
  intro ts
  induction ts with
  | nil => intro s _ _; exact ⟨s, rfl⟩
  | cons t ts ih =>
    intro s hnd hdirs
    obtain ⟨s1, hp⟩ := persist_isSome s t (hdirs t (List.mem_cons_self t ts))
    have hdirs1 : ∀ u ∈ ts, (alookup u s1.dirs).isSome = true := by
      intro u hu
      have hne : t ≠ u := fun he => (List.nodup_cons.mp hnd).1 (he ▸ hu)
      rw [persist_dirs_frame s hp hne]
      exact hdirs u (List.mem_cons_of_mem t hu)
    obtain ⟨s', hc⟩ := ih s1 (List.nodup_cons.mp hnd).2 hdirs1
    refine ⟨s', ?_⟩
    unfold CertFileDB.commitTargets
    rw [hp]
    exact hc

theorem commitTargets_hit {t fname c : String} :
    ∀ (ts : List String) (s s' : CertFileDB) (L : List (String × String)),
      s.commitTargets ts = some s' → ts.Nodup → t ∈ ts →
      alookup t s.dirs = some L → alookup fname L = some c →
      (∀ E, alookup (t ++ ".zip") s.zips = some E → alookup fname E = none) →
      ∃ E', alookup (t ++ ".zip") s'.zips = some E' ∧ alookup fname E' = some c := by
  intro ts
  induction ts with
  | nil => intro s s' L _ _ hmem; cases hmem
  | cons u ts ih =>
    intro s s' L h hnd hmem hL hfc hz
    unfold CertFileDB.commitTargets at h
    cases hp : s.persist_and_clean_storage_target u with
    | none => rw [hp] at h; cases h
    | some s1 =>
      rw [hp] at h
      by_cases hut : u = t
      · subst hut
        obtain ⟨E1, hE1, hfE1⟩ := persist_hit s u fname c hp hL hfc hz
        have hnot : u ∉ ts := (List.nodup_cons.mp hnd).1
        obtain ⟨hframe, _⟩ := commitTargets_frame ts s1 s' h hnot
        exact ⟨E1, hframe.trans hE1, hfE1⟩
      · have hmem' : t ∈ ts := by
          cases List.mem_cons.mp hmem with
          | inl he => exact absurd he.symm hut
          | inr hm => exact hm
        have hL1 : alookup t s1.dirs = some L := (persist_dirs_frame s hp hut).trans hL
        have hz1 : ∀ E, alookup (t ++ ".zip") s1.zips = some E → alookup fname E = none := by
          intro E hE
          exact hz E ((persist_zips_frame s hp hut).symm.trans hE)
        exact ih s1 s' L h (List.nodup_cons.mp hnd).2 hmem' hL1 hfc hz1

theorem clean_eq (s : CertFileDB) (t : String) {s' : CertFileDB}
    (h : s.clean_storage_target t = some s') :
    (alookup t s.dirs).isSome = true ∧ s' = { s with dirs := aerase t s.dirs } := by
  unfold CertFileDB.clean_storage_target at h
  by_cases hd : (alookup t s.dirs).isSome = true
  · rw [if_pos hd] at h
    exact ⟨hd, (Option.some.inj h).symm⟩
  · rw [if_neg hd] at h; cases h

theorem rollbackTargets_fields :
    ∀ (ts : List String) (s s' : CertFileDB), s.rollbackTargets ts = some s' →
      s'.cert_storage = s.cert_storage ∧ s'.zips = s.zips ∧
        s'.transaction = s.transaction := by
  intro ts
  induction ts with
  | nil => intro s s' h; cases h; exact ⟨rfl, rfl, rfl⟩
  | cons t ts ih =>
    intro s s' h
    unfold CertFileDB.rollbackTargets at h
    cases hp : s.clean_storage_target t with
    | none => rw [hp] at h; cases h
    | some s1 =>
      rw [hp] at h
      obtain ⟨h1, h2, h3⟩ := ih _ s' h
      obtain ⟨_, he⟩ := clean_eq s t hp
      subst he
      exact ⟨h1, h2, h3⟩

theorem rollbackTargets_isSome :
    ∀ (ts : List String) (s : CertFileDB), ts.Nodup →
      (∀ u ∈ ts, (alookup u s.dirs).isSome = true) →
      ∃ s', s.rollbackTargets ts = some s' := by
  intro ts
  induction ts with
  | nil => intro s _ _; exact ⟨s, rfl⟩
  | cons t ts ih =>
    intro s hnd hdirs
    have hd := hdirs t (List.mem_cons_self t ts)
    have hsome : s.clean_storage_target t = some { s with dirs := aerase t s.dirs } := by
      unfold CertFileDB.clean_storage_target
      rw [if_pos hd]
    have hdirs1 : ∀ u ∈ ts, (alookup u ({ s with dirs := aerase t s.dirs} : CertFileDB).dirs).isSome = true := by
      intro u hu
      have hne : t ≠ u := fun he => (List.nodup_cons.mp hnd).1 (he ▸ hu)
      show (alookup u (aerase t s.dirs)).isSome = true
      rw [alookup_aerase_ne hne]
      exact hdirs u (List.mem_cons_of_mem t hu)
    obtain ⟨s', hc⟩ := ih _ (List.nodup_cons.mp hnd).2 hdirs1
    refine ⟨s', ?_⟩
    unfold CertFileDB.rollbackTargets
    rw [hsome]
    exact hc

/-- Behaviour of `insert` on a fresh id: when no loose file for `id` exists
in its shard directory, the certificate file is written and the shard
location journaled; archives, the storage root and all other directories are
untouched. -/
theorem insert_fresh (s : CertFileDB) (id cert : String)
    (hid : id ≠ "") (hc : cert ≠ "")
    (hfile : s.fileContent (s.get_cert_location id) (id_to_filename id) = none)
    (hJ : s.journalValid) :
    ∃ s1, s.insert id cert = .ok s1 ∧
      s1.cert_storage = s.cert_storage ∧
      s1.zips = s.zips ∧
      s1.transaction = (if s.get_cert_location id ∈ s.transaction then s.transaction
                        else s.get_cert_location id :: s.transaction) ∧
      (∃ L, alookup (s.get_cert_location id) s1.dirs = some L ∧
            alookup (id_to_filename id) L = some cert) ∧
      (∀ u, u ≠ s.get_cert_location id → alookup u s1.dirs = alookup u s.dirs) := by
  have hvalid : ¬(id = "" ∨ cert = "") := by
    rintro (h | h)
    · exact hid h
    · exact hc h
  have hnotsome : (s.fileContent (s.get_cert_location id) (id_to_filename id)).isSome = false := by
    rw [hfile]; rfl
  by_cases hmem : s.get_cert_location id ∈ s.transaction
  · obtain ⟨L, hL⟩ := Option.isSome_iff_exists.mp (hJ _ hmem)
    have hcreate : s.create_cert_location id = s := by
      unfold CertFileDB.create_cert_location
      rw [if_pos hmem]
    refine ⟨CertFileDB.mk s.cert_storage
              (aset (s.get_cert_location id) (aset (id_to_filename id) cert L) s.dirs)
              s.zips s.transaction, ?_, rfl, rfl, ?_, ?_, ?_⟩
    · unfold CertFileDB.insert
      rw [if_neg hvalid]
      simp only [hcreate]
      rw [if_neg (by rw [hnotsome]; simp)]
      unfold CertFileDB.writeFile
      rw [hL]
      simp only [if_pos hmem]
    · rw [if_pos hmem]
    · exact ⟨aset (id_to_filename id) cert L,
        alookup_aset_self _ _ _, alookup_aset_self _ _ _⟩
    · intro u hu
      exact alookup_aset_ne (Ne.symm hu) _ s.dirs
  · by_cases hdir : (alookup (s.get_cert_location id) s.dirs).isSome = true
    · obtain ⟨L, hL⟩ := Option.isSome_iff_exists.mp hdir
      have hcreate : s.create_cert_location id = s := by
        unfold CertFileDB.create_cert_location
        rw [if_neg hmem, if_pos hdir]
      refine ⟨CertFileDB.mk s.cert_storage
                (aset (s.get_cert_location id) (aset (id_to_filename id) cert L) s.dirs)
                s.zips (s.get_cert_location id :: s.transaction),
              ?_, rfl, rfl, ?_, ?_, ?_⟩
      · unfold CertFileDB.insert
        rw [if_neg hvalid]
        simp only [hcreate]
        rw [if_neg (by rw [hnotsome]; simp)]
        unfold CertFileDB.writeFile
        rw [hL]
        simp only [if_neg hmem]
      · rw [if_neg hmem]
      · exact ⟨aset (id_to_filename id) cert L,
          alookup_aset_self _ _ _, alookup_aset_self _ _ _⟩
      · intro u hu
        exact alookup_aset_ne (Ne.symm hu) _ s.dirs
    · have hcreate : s.create_cert_location id =
          { s with dirs := (s.get_cert_location id, []) :: s.dirs } := by
        unfold CertFileDB.create_cert_location
        rw [if_neg hmem, if_neg hdir]
      have hmem' : s.cert_storage ++ "/" ++ id.take 2 ++ "/" ++ id.take 4 ∉ s.transaction :=
        hmem
      refine ⟨CertFileDB.mk s.cert_storage
                (aset (s.get_cert_location id) (aset (id_to_filename id) cert [])
                  ((s.get_cert_location id, []) :: s.dirs))
                s.zips (s.get_cert_location id :: s.transaction),
              ?_, rfl, rfl, ?_, ?_, ?_⟩
      · unfold CertFileDB.insert
        rw [if_neg hvalid]
        simp only [hcreate]
        simp [CertFileDB.writeFile, CertFileDB.fileContent, CertFileDB.get_cert_location,
          alookup_cons, alookup_nil, hmem']
      · rw [if_neg hmem]
      · exact ⟨aset (id_to_filename id) cert [],
          alookup_aset_self _ _ _, alookup_aset_self _ _ _⟩
      · intro u hu
        rw [alookup_aset_ne (Ne.symm hu) _ _, alookup_cons, if_neg hu.symm]

/-- When the loose file for `id` already exists in its shard directory,
`insert` returns before writing anything or touching the Journal: the state
is left exactly as it was. -/
theorem insert_noop_of_file (s : CertFileDB) (id cert : String)
    (hid : id ≠ "") (hc : cert ≠ "")
    (hfile : (s.fileContent (s.get_cert_location id) (id_to_filename id)).isSome = true) :
    s.insert id cert = .ok s := by
  have hvalid : ¬(id = "" ∨ cert = "") := by
    rintro (h | h)
    · exact hid h
    · exact hc h
  have hdir : (alookup (s.get_cert_location id) s.dirs).isSome = true := by
    obtain ⟨c, hcsome⟩ := Option.isSome_iff_exists.mp hfile
    obtain ⟨L, hL, _⟩ := Option.bind_eq_some.mp hcsome
    rw [hL]; rfl
  have hcreate : s.create_cert_location id = s := by
    unfold CertFileDB.create_cert_location
    by_cases hmem : s.get_cert_location id ∈ s.transaction
    · rw [if_pos hmem]
    · rw [if_neg hmem, if_pos hdir]
  unfold CertFileDB.insert
  rw [if_neg hvalid]
  simp only [hcreate]
  rw [if_pos hfile]

theorem zipContent_none_forall (s : CertFileDB) (z f : String)
    (h : s.zipContent z f = none) :
    ∀ E, alookup z s.zips = some E → alookup f E = none := by
  intro E hE
  unfold CertFileDB.zipContent at h
  rw [hE] at h
  simpa using h

/-- With an empty transaction set, `get` resolves through the zip archive. -/
theorem get_zip_only (s : CertFileDB) (id content : String)
    (ht : s.transaction = [])
    (hz : s.zipContent (s.get_cert_location id ++ ".zip") (id_to_filename id) = some content) :
    s.get id = .ok content := by
  unfold CertFileDB.get
  rw [ht]
  simp [hz]

/-- With an empty transaction set and no archived entry, `exists` is false. -/
theorem exists_false_of_empty (s : CertFileDB) (id : String)
    (ht : s.transaction = [])
    (hz : s.zipContent (s.get_cert_location id ++ ".zip") (id_to_filename id) = none) :
    s.exists id = false := by
  unfold CertFileDB.exists
  rw [ht]
  simp [hz]

/-- `rollback` succeeds on a valid Journal: every journaled directory is
removed, the Journal is cleared, and no archive or the storage root is
touched. -/
theorem rollback_ok (s : CertFileDB)
    (hnd : s.transaction.Nodup) (hJ : s.journalValid) :
    ∃ s2, s.rollback = .ok s2 ∧ s2.zips = s.zips ∧
      s2.cert_storage = s.cert_storage ∧ s2.transaction = [] := by
  obtain ⟨s', hro⟩ := rollbackTargets_isSome s.transaction s hnd hJ
  obtain ⟨h1, h2, _⟩ := rollbackTargets_fields s.transaction s s' hro
  refine ⟨{ s' with transaction := [] }, ?_, h2, h1, rfl⟩
  unfold CertFileDB.rollback
  rw [hro]

/-- After a state `s1` whose Journal is valid and holds `id`'s shard with the
loose file for `id` containing `content`, and whose archive does not yet hold
the entry, `commit` (cores = 1) persists the entry and `get` then serves it
from the archive. -/
theorem commit_get_after (s1 : CertFileDB) (id content : String)
    (hnd1 : s1.transaction.Nodup) (hJ1 : s1.journalValid)
    (hmem1 : s1.get_cert_location id ∈ s1.transaction)
    (L : List (String × String))
    (hLsome : alookup (s1.get_cert_location id) s1.dirs = some L)
    (hLf : alookup (id_to_filename id) L = some content)
    (hz1 : ∀ E, alookup (s1.get_cert_location id ++ ".zip") s1.zips = some E →
      alookup (id_to_filename id) E = none) :
    ∃ s2, s1.commit 1 = .ok s2 ∧ s2.get id = .ok content := by
  obtain ⟨s2', hct⟩ := commitTargets_isSome s1.transaction s1 hnd1 hJ1
  obtain ⟨E', hE', hfE'⟩ :=
    commitTargets_hit s1.transaction s1 s2' L hct hnd1 hmem1 hLsome hLf hz1
  have hcs2 : ({ s2' with transaction := [] } : CertFileDB).cert_storage =
      s1.cert_storage := (commitTargets_fields s1.transaction s1 s2' hct).1
  have hloc : ({ s2' with transaction := [] } : CertFileDB).get_cert_location id =
      s1.get_cert_location id := by
    unfold CertFileDB.get_cert_location
    rw [hcs2]
  refine ⟨{ s2' with transaction := [] }, ?_, ?_⟩
  · unfold CertFileDB.commit
    rw [if_neg (by decide), hct]
  · apply get_zip_only _ _ _ rfl
    unfold CertFileDB.zipContent
    rw [hloc]
    show (alookup (s1.get_cert_location id ++ ".zip") s2'.zips).bind _ = some content
    rw [hE']
    simpa using hfE'

/-- Packaged consequences of a fresh `insert` on a well-formed state: the
result is well-formed again, its Journal holds `id`'s shard, the loose file
holds `cert`, and archives are untouched. -/
theorem insert_fresh_post (s : CertFileDB) (id cert : String)
    (hid : id ≠ "") (hc : cert ≠ "")
    (hfile : s.fileContent (s.get_cert_location id) (id_to_filename id) = none)
    (hJ : s.journalValid) (hnd : s.transaction.Nodup) :
    ∃ s1, s.insert id cert = .ok s1 ∧
      s1.cert_storage = s.cert_storage ∧ s1.zips = s.zips ∧
      s1.transaction.Nodup ∧ s1.journalValid ∧
      s1.get_cert_location id ∈ s1.transaction ∧
      (∃ L, alookup (s1.get_cert_location id) s1.dirs = some L ∧
        alookup (id_to_filename id) L = some cert) := by
  obtain ⟨s1, hins, hcs, hzips, htrans, ⟨L, hLsome, hLf⟩, hframe⟩ :=
    insert_fresh s id cert hid hc hfile hJ
  have hloc1 : s1.get_cert_location id = s.get_cert_location id := by
    unfold CertFileDB.get_cert_location
    rw [hcs]
  have hnd1 : s1.transaction.Nodup := by
    rw [htrans]
    by_cases hmem : s.get_cert_location id ∈ s.transaction
    · rwa [if_pos hmem]
    · rw [if_neg hmem]
      exact List.nodup_cons.mpr ⟨hmem, hnd⟩
  have hmem1 : s1.get_cert_location id ∈ s1.transaction := by
    rw [hloc1, htrans]
    by_cases hmem : s.get_cert_location id ∈ s.transaction
    · rwa [if_pos hmem]
    · rw [if_neg hmem]
      exact List.mem_cons_self _ _
  have hJ1 : s1.journalValid := by
    intro t ht
    by_cases htl : t = s.get_cert_location id
    · subst htl
      rw [hLsome]; rfl
    · rw [hframe t htl]
      apply hJ t
      rw [htrans] at ht
      by_cases hmem : s.get_cert_location id ∈ s.transaction
      · rwa [if_pos hmem] at ht
      · rw [if_neg hmem] at ht
        cases List.mem_cons.mp ht with
        | inl he => exact absurd he htl
        | inr hm => exact hm
  exact ⟨s1, hins, hcs, hzips, hnd1, hJ1, hmem1,
    ⟨L, by rw [hloc1]; exact hLsome, hLf⟩⟩

/-- C1: starting from a store holding no entry for `id` (no loose file, no
archived entry) with a valid Journal, `insert(id, content); commit(); get(id)`
returns exactly `content`: the round trip through the loose file, compaction
into the shard archive, and archive read preserves the stored text. -/
theorem insert_commit_get_roundtrip (s : CertFileDB) (id content : String)
    (hid : id ≠ "") (hc : content ≠ "")
    (hfile : s.fileContent (s.get_cert_location id) (id_to_filename id) = none)
    (hzip : s.zipContent (s.get_cert_location id ++ ".zip") (id_to_filename id) = none)
    (hJ : s.journalValid) (hnd : s.transaction.Nodup) :
    ∃ s1 s2, s.insert id content = .ok s1 ∧ s1.commit 1 = .ok s2 ∧
      s2.get id = .ok content := by
  obtain ⟨s1, hins, hcs, hzips, hnd1, hJ1, hmem1, ⟨L, hLsome, hLf⟩⟩ :=
    insert_fresh_post s id content hid hc hfile hJ hnd
  have hloc1 : s1.get_cert_location id = s.get_cert_location id := by
    unfold CertFileDB.get_cert_location
    rw [hcs]
  have hz1 : ∀ E, alookup (s1.get_cert_location id ++ ".zip") s1.zips = some E →
      alookup (id_to_filename id) E = none := by
    intro E hE
    apply zipContent_none_forall s _ _ hzip
    rwa [hloc1, hzips] at hE
  obtain ⟨s2, hcommit, hget⟩ :=
    commit_get_after s1 id content hnd1 hJ1 hmem1 L hLsome hLf hz1
  exact ⟨s1, s2, hins, hcommit, hget⟩

/-- C4: inserting `id` twice in one batch with different contents leaves the
second call a reported success that changes nothing, and after `commit` the
store serves the first content: a re-insert never overwrites the first
write. -/
theorem insert_twice_first_write_wins (s : CertFileDB) (id c1 c2 : String)
    (hid : id ≠ "") (hc1 : c1 ≠ "") (hc2 : c2 ≠ "") (_hne : c1 ≠ c2)
    (hfile : s.fileContent (s.get_cert_location id) (id_to_filename id) = none)
    (hzip : s.zipContent (s.get_cert_location id ++ ".zip") (id_to_filename id) = none)
    (hJ : s.journalValid) (hnd : s.transaction.Nodup) :
    ∃ s1 s2, s.insert id c1 = .ok s1 ∧ s1.insert id c2 = .ok s1 ∧
      s1.commit 1 = .ok s2 ∧ s2.get id = .ok c1 := by
  obtain ⟨s1, hins, hcs, hzips, hnd1, hJ1, hmem1, ⟨L, hLsome, hLf⟩⟩ :=
    insert_fresh_post s id c1 hid hc1 hfile hJ hnd
  have hloc1 : s1.get_cert_location id = s.get_cert_location id := by
    unfold CertFileDB.get_cert_location
    rw [hcs]
  have hfile1 : (s1.fileContent (s1.get_cert_location id) (id_to_filename id)).isSome = true := by
    unfold CertFileDB.fileContent
    rw [hLsome]
    simp [hLf]
  have hnoop : s1.insert id c2 = .ok s1 := insert_noop_of_file s1 id c2 hid hc2 hfile1
  have hz1 : ∀ E, alookup (s1.get_cert_location id ++ ".zip") s1.zips = some E →
      alookup (id_to_filename id) E = none := by
    intro E hE
    apply zipContent_none_forall s _ _ hzip
    rwa [hloc1, hzips] at hE
  obtain ⟨s2, hcommit, hget⟩ :=
    commit_get_after s1 id c1 hnd1 hJ1 hmem1 L hLsome hLf hz1
  exact ⟨s1, s2, hins, hnoop, hcommit, hget⟩

/-- C6: for an id not previously committed (no archived entry), after
`insert(id, content); rollback()` the call `exists(id)` returns false:
rollback deletes every journaled shard directory and clears the Journal
while touching no archive, so uncommitted work vanishes entirely. -/
theorem insert_rollback_erases (s : CertFileDB) (id cert : String)
    (hid : id ≠ "") (hc : cert ≠ "")
    (hzip : s.zipContent (s.get_cert_location id ++ ".zip") (id_to_filename id) = none)
    (hJ : s.journalValid) (hnd : s.transaction.Nodup) :
    ∃ s1 s2, s.insert id cert = .ok s1 ∧ s1.rollback = .ok s2 ∧
      s2.exists id = false ∧ s2.zips = s.zips := by
  have finish : ∀ s1 : CertFileDB, s1.cert_storage = s.cert_storage →
      s1.zips = s.zips → s1.transaction.Nodup → s1.journalValid →
      ∃ s2, s1.rollback = .ok s2 ∧ s2.exists id = false ∧ s2.zips = s.zips := by
    intro s1 hcs hzips hnd1 hJ1
    obtain ⟨s2, hrb, hz2, hcs2, ht2⟩ := rollback_ok s1 hnd1 hJ1
    have hloc2 : s2.get_cert_location id = s.get_cert_location id := by
      unfold CertFileDB.get_cert_location
      rw [hcs2, hcs]
    have hzc2 : s2.zipContent (s2.get_cert_location id ++ ".zip") (id_to_filename id) = none := by
      unfold CertFileDB.zipContent
      rw [hloc2, hz2, hzips]
      unfold CertFileDB.zipContent at hzip
      exact hzip
    exact ⟨s2, hrb, exists_false_of_empty s2 id ht2 hzc2, hz2.trans hzips⟩
  cases hf : s.fileContent (s.get_cert_location id) (id_to_filename id) with
  | some c =>
    have hok := insert_noop_of_file s id cert hid hc (by rw [hf]; rfl)
    obtain ⟨s2, hrb, hex, hz⟩ := finish s rfl rfl hnd hJ
    exact ⟨s, s2, hok, hrb, hex, hz⟩
  | none =>
    obtain ⟨s1, hins, hcs, hzips, hnd1, hJ1, _, _⟩ :=
      insert_fresh_post s id cert hid hc hf hJ hnd
    obtain ⟨s2, hrb, hex, hz⟩ := finish s1 hcs hzips hnd1 hJ1
    exact ⟨s1, s2, hins, hrb, hex, hz⟩

/-- C10: when the loose file for `id` already exists in its shard directory,
`insert(id, content)` returns with the state entirely unchanged: no file is
modified and the shard location is not added to the Journal, so a
pre-existing loose file in an unjournaled shard does not become journaled
and a later `commit` of this instance will not compact that shard. -/
theorem insert_preexisting_loose_file_is_frame (s : CertFileDB) (id cert : String)
    (hid : id ≠ "") (hc : cert ≠ "")
    (hfile : (s.fileContent (s.get_cert_location id) (id_to_filename id)).isSome = true) :
    s.insert id cert = .ok s :=
  insert_noop_of_file s id cert hid hc hfile

/-- C3 fails as stated: `insert` only checks the loose file, not the archive.
Starting from a store whose shard archive already holds `aabbccdd` with
content `OLD`, `insert("aabbccdd", "NEW")` is not a no-op: it writes a loose
file, and the id is then visible in two authoritative places with different
content (`get` serves `NEW` from the overlay while the archive entry still
holds `OLD`). -/
theorem insert_archived_id_not_noop :
    archivedOldStore.insert "aabbccdd" "NEW" = .ok archivedOldStore1 ∧
    archivedOldStore1 ≠ archivedOldStore ∧
    archivedOldStore1.get "aabbccdd" = .ok "NEW" ∧
    archivedOldStore1.zipContent "storage/certs/aa/aabb.zip" "aabbccdd.pem" = some "OLD" := by
  refine ⟨by decide, by decide, by decide, by decide⟩

/-- C3 (amended): `insert(id, c)` is a no-op exactly when a loose file for
`id` already exists in its shard directory; an id present only in the shard
archive is re-inserted as a loose file and can be visible in both the
overlay and the archive with different content during the open batch. -/
theorem insert_noop_iff_loose_file (s : CertFileDB) (id cert : String)
    (hid : id ≠ "") (hc : cert ≠ "") (hJ : s.journalValid) :
    s.insert id cert = .ok s ↔
      (s.fileContent (s.get_cert_location id) (id_to_filename id)).isSome = true := by
  constructor
  · intro hok
    by_contra hnot
    have hfile : s.fileContent (s.get_cert_location id) (id_to_filename id) = none := by
      cases hv : s.fileContent (s.get_cert_location id) (id_to_filename id) with
      | none => rfl
      | some c => exact absurd (by rw [hv]; rfl) hnot
    obtain ⟨s1, hins, _, _, _, ⟨L, hLsome, hLf⟩, _⟩ :=
      insert_fresh s id cert hid hc hfile hJ
    have hs1 : s1 = s := Except.ok.inj (hins.symm.trans hok)
    rw [hs1] at hLsome
    have hsome : s.fileContent (s.get_cert_location id) (id_to_filename id) = some cert := by
      unfold CertFileDB.fileContent
      rw [hLsome]
      simpa using hLf
    rw [hsome] at hfile
    cases hfile
  · exact insert_noop_of_file s id cert hid hc

/-- C2 fails on the code: the `cores > 1` branch of `commit` is an
unfinished stub whose loop body does nothing, so `commit(cores=2)` on a store
with one journaled shard clears the Journal without invoking
`persist_and_clean_storage_target` on it: the loose-file directory remains
and no archive is written, while the `cores = 1` path on the same state does
compact the shard into its zip and delete the directory. -/
theorem commit_multicore_clears_journal_without_compacting :
    dirtyStore.commit 2 =
      .ok (CertFileDB.mk "storage/certs"
        [("storage/certs/aa/aabb", [("aabbccdd.pem", "PEM")])] [] []) ∧
    dirtyStore.commit 1 =
      .ok (CertFileDB.mk "storage/certs" []
        [("storage/certs/aa/aabb.zip", [("aabbccdd.pem", "PEM")])] []) := by
  refine ⟨by decide, by decide⟩

/-- C5: compaction never duplicates an archive entry name.  When
`persist_and_clean_storage_target` appends a shard directory whose listing
has no duplicate names (as a file-system listing never does) to an archive
whose entry names are distinct, every loose-file name already present in the
archive's entry listing is skipped, so the resulting archive again has no
two entries with the same name — committing twice across two batches never
duplicates an id's entry. -/
theorem persist_no_duplicate_entry_names (s : CertFileDB) (target : String)
    (L : List (String × String)) (s' : CertFileDB)
    (hL : alookup target s.dirs = some L)
    (hLnd : (L.map Prod.fst).Nodup)
    (hE : ∀ E, alookup (target ++ ".zip") s.zips = some E → (E.map Prod.fst).Nodup)
    (h : s.persist_and_clean_storage_target target = some s') :
    ∃ E', alookup (target ++ ".zip") s'.zips = some E' ∧ (E'.map Prod.fst).Nodup := by
  obtain ⟨certs, hd, rfl⟩ := persist_eq s target h
  have hcL : certs = L := by
    rw [hd] at hL
    exact Option.some.inj hL
  subst hcL
  refine ⟨_, alookup_aset_self _ _ _, ?_⟩
  cases hez : alookup (target ++ ".zip") s.zips with
  | none => simpa only [hez] using hLnd
  | some E =>
    simp only [hez]
    rw [List.map_append, List.nodup_append]
    refine ⟨hE E hez, ?_, ?_⟩
    · exact hLnd.sublist ((List.filter_sublist _).map Prod.fst)
    · intro a haE haF
      obtain ⟨p, hpF, rfl⟩ := List.mem_map.mp haF
      have hpf : ((alookup p.1 E).isNone) = true := (List.mem_filter.mp hpF).2
      exact (alookup_eq_none_iff p.1 E).mp (Option.isNone_iff_eq_none.mp hpf) haE

/-- C7: `get` checks the loose-file overlay for `id`'s shard first and the
shard archive second, returning the first hit, and `export` follows the same
resolution order with the same failure mode, producing the file path inside
`target_dir`; both fail with `CertNotAvailableError id` exactly when the id
is present in neither location.  The hypothesis is the Journal-accuracy
invariant of the store: with an empty Journal no loose file is present. -/
theorem get_export_resolution_order (s : CertFileDB) (id target_dir : String)
    (hacc : s.transaction = [] →
      s.fileContent (s.get_cert_location id) (id_to_filename id) = none) :
    (s.get id =
      match s.fileContent (s.get_cert_location id) (id_to_filename id) with
      | some content => .ok content
      | none =>
        match s.zipContent (s.get_cert_location id ++ ".zip") (id_to_filename id) with
        | some content => .ok content
        | none => .error (.certNotAvailable id)) ∧
    (s.export id target_dir =
      match s.fileContent (s.get_cert_location id) (id_to_filename id) with
      | some content => .ok (target_dir ++ "/" ++ id_to_filename id, content)
      | none =>
        match s.zipContent (s.get_cert_location id ++ ".zip") (id_to_filename id) with
        | some content => .ok (target_dir ++ "/" ++ id_to_filename id, content)
        | none => .error (.certNotAvailable id)) ∧
    (s.get id = .error (.certNotAvailable id) ↔
      s.fileContent (s.get_cert_location id) (id_to_filename id) = none ∧
        s.zipContent (s.get_cert_location id ++ ".zip") (id_to_filename id) = none) ∧
    (s.export id target_dir = .error (.certNotAvailable id) ↔
      s.fileContent (s.get_cert_location id) (id_to_filename id) = none ∧
        s.zipContent (s.get_cert_location id ++ ".zip") (id_to_filename id) = none) := by
  have hfrom : (if s.transaction.isEmpty then none
      else s.fileContent (s.get_cert_location id) (id_to_filename id)) =
      s.fileContent (s.get_cert_location id) (id_to_filename id) := by
    cases hs : s.transaction with
    | nil => rw [hacc hs]; simp
    | cons a l => simp
  have hg : s.get id =
      match s.fileContent (s.get_cert_location id) (id_to_filename id) with
      | some content => .ok content
      | none =>
        match s.zipContent (s.get_cert_location id ++ ".zip") (id_to_filename id) with
        | some content => .ok content
        | none => .error (.certNotAvailable id) := by
    simp only [CertFileDB.get]
    rw [hfrom]
  have hx : s.export id target_dir =
      match s.fileContent (s.get_cert_location id) (id_to_filename id) with
      | some content => .ok (target_dir ++ "/" ++ id_to_filename id, content)
      | none =>
        match s.zipContent (s.get_cert_location id ++ ".zip") (id_to_filename id) with
        | some content => .ok (target_dir ++ "/" ++ id_to_filename id, content)
        | none => .error (.certNotAvailable id) := by
    simp only [CertFileDB.export]
    rw [hfrom]
  refine ⟨hg, hx, ?_, ?_⟩
  · rw [hg]
    cases hf : s.fileContent (s.get_cert_location id) (id_to_filename id) with
    | some c => simp
    | none =>
      cases hz : s.zipContent (s.get_cert_location id ++ ".zip") (id_to_filename id) with
      | some c => simp
      | none => simp
  · rw [hx]
    cases hf : s.fileContent (s.get_cert_location id) (id_to_filename id) with
    | some c => simp
    | none =>
      cases hz : s.zipContent (s.get_cert_location id ++ ".zip") (id_to_filename id) with
      | some c => simp
      | none => simp

/-- C8: `insert(id, content)` fails with `CertInvalidError` exactly when `id`
or `content` is the empty string; in that case the definite error value is
returned before any file is written or the Journal is touched, so the state
is unmodified. -/
theorem insert_invalid_iff (s : CertFileDB) (id cert : String) :
    ((∃ msg, s.insert id cert = .error (.certInvalid msg)) ↔ (id = "" ∨ cert = "")) ∧
    ((id = "" ∨ cert = "") →
      s.insert id cert =
        .error (.certInvalid ("id <" ++ id ++ "> or cert <" ++ cert ++ "> invalid"))) := by
  by_cases hval : id = "" ∨ cert = ""
  · have heq : s.insert id cert =
        .error (.certInvalid ("id <" ++ id ++ "> or cert <" ++ cert ++ "> invalid")) := by
      unfold CertFileDB.insert
      rw [if_pos hval]
    exact ⟨⟨fun _ => hval, fun _ => ⟨_, heq⟩⟩, fun _ => heq⟩
  · have hne : ∀ msg, s.insert id cert ≠ .error (.certInvalid msg) := by
      intro msg
      unfold CertFileDB.insert
      rw [if_neg hval]
      dsimp only
      split
      · intro hcon; cases hcon
      · split
        · intro hcon
          simp at hcon
        · intro hcon; cases hcon
    refine ⟨⟨?_, fun h => absurd h hval⟩, fun h => absurd h hval⟩
    rintro ⟨msg, hmsg⟩
    exact absurd hmsg (hne msg)

/-- C9: `exists_all(ids)` is true exactly when `exists` holds for every id
in the list (vacuously true for the empty list), and it short-circuits: as
soon as one id fails `exists`, the result is false whatever ids follow. -/
theorem exists_all_iff_forall (s : CertFileDB) (ids : List String) :
    (s.exists_all ids = true ↔ ∀ id ∈ ids, s.exists id = true) ∧
    (∀ pre bad post, s.exists bad = false →
      s.exists_all (pre ++ bad :: post) = false) := by
  constructor
  · induction ids with
    | nil => simp [CertFileDB.exists_all]
    | cons a rest ih =>
      by_cases ha : s.exists a = true
      · simp [CertFileDB.exists_all, ha, ih]
      · simp only [CertFileDB.exists_all]
        rw [if_neg ha]
        constructor
        · intro hcon; cases hcon
        · intro hall; exact absurd (hall a (List.mem_cons_self a rest)) ha
  · intro pre bad post hbad
    induction pre with
    | nil =>
      simp only [List.nil_append, CertFileDB.exists_all]
      rw [if_neg (by rw [hbad]; simp)]
    | cons p pre ih =>
      simp only [List.cons_append, CertFileDB.exists_all]
      by_cases hp : s.exists p = true
      · rw [if_pos hp]
        exact ih
      · rw [if_neg hp]

/-- Witness for the round trip: a concrete insert/commit/get run on the
empty store. -/
theorem insert_commit_get_roundtrip_witness :
    ∃ s1 s2, emptyStore.insert "abcd1234" "PEMDATA" = .ok s1 ∧
      s1.commit 1 = .ok s2 ∧ s2.get "abcd1234" = .ok "PEMDATA" :=
  insert_commit_get_roundtrip emptyStore "abcd1234" "PEMDATA" (by decide) (by decide)
    (by decide) (by decide) (by decide) (by decide)

/-- Witness for idempotent insert: two inserts of different contents on the
empty store, then commit and get. -/
theorem insert_twice_first_write_wins_witness :
    ∃ s1 s2, emptyStore.insert "abcd1234" "FIRST" = .ok s1 ∧
      s1.insert "abcd1234" "SECOND" = .ok s1 ∧
      s1.commit 1 = .ok s2 ∧ s2.get "abcd1234" = .ok "FIRST" :=
  insert_twice_first_write_wins emptyStore "abcd1234" "FIRST" "SECOND" (by decide)
    (by decide) (by decide) (by decide) (by decide) (by decide) (by decide) (by decide)

/-- Witness for compaction non-duplication: persisting the dirty store's
only shard yields an archive with distinct entry names. -/
theorem persist_no_duplicate_entry_names_witness :
    ∃ E', alookup ("storage/certs/aa/aabb" ++ ".zip")
        (CertFileDB.mk "storage/certs" []
          [("storage/certs/aa/aabb.zip", [("aabbccdd.pem", "PEM")])]
          ["storage/certs/aa/aabb"]).zips = some E' ∧
      (E'.map Prod.fst).Nodup :=
  persist_no_duplicate_entry_names dirtyStore "storage/certs/aa/aabb"
    [("aabbccdd.pem", "PEM")]
    (CertFileDB.mk "storage/certs" []
      [("storage/certs/aa/aabb.zip", [("aabbccdd.pem", "PEM")])]
      ["storage/certs/aa/aabb"])
    (by decide) (by decide) (by intro E hE; cases hE) (by decide)

/-- Witness for rollback erasure: insert then rollback on the empty store. -/
theorem insert_rollback_erases_witness :
    ∃ s1 s2, emptyStore.insert "beefcafe" "DATA" = .ok s1 ∧
      s1.rollback = .ok s2 ∧ s2.exists "beefcafe" = false ∧
      s2.zips = emptyStore.zips :=
  insert_rollback_erases emptyStore "beefcafe" "DATA" (by decide) (by decide)
    (by decide) (by decide) (by decide)

/-- Witness for the lookup resolution order: on the dirty store the loose
file is served first by both `get` and `export`. -/
theorem get_export_resolution_order_witness :
    dirtyStore.get "aabbccdd" = .ok "PEM" ∧
      dirtyStore.export "aabbccdd" "out" = .ok ("out" ++ "/" ++ "aabbccdd.pem", "PEM") := by
  have h := get_export_resolution_order dirtyStore "aabbccdd" "out" (by decide)
  exact ⟨by rw [h.1]; decide, by rw [h.2.1]; decide⟩

/-- Witness for the invalid-input rule: inserting an empty id yields the
`CertInvalidError`. -/
theorem insert_invalid_iff_witness :
    emptyStore.insert "" "PEM" =
      .error (.certInvalid ("id <" ++ "" ++ "> or cert <" ++ "PEM" ++ "> invalid")) :=
  (insert_invalid_iff emptyStore "" "PEM").2 (Or.inl rfl)

/-- Witness for `exists_all` short-circuiting: a single missing id makes the
whole conjunction false. -/
theorem exists_all_iff_forall_witness :
    emptyStore.exists_all ["missing1"] = false :=
  (exists_all_iff_forall emptyStore ["missing1"]).2 [] "missing1" [] (by decide)

/-- Witness for the frame property of `insert` on a pre-existing loose file:
the stale store (unjournaled shard holding the file) is returned unchanged. -/
theorem insert_preexisting_loose_file_is_frame_witness :
    staleStore.insert "aabbccdd" "OTHER" = .ok staleStore :=
  insert_preexisting_loose_file_is_frame staleStore "aabbccdd" "OTHER"
    (by decide) (by decide) (by decide)

/-- Witness for the amended no-op characterization: on the dirty store,
re-inserting the journaled id is exactly a no-op. -/
theorem insert_noop_iff_loose_file_witness :
    dirtyStore.insert "aabbccdd" "X" = .ok dirtyStore :=
  (insert_noop_iff_loose_file dirtyStore "aabbccdd" "X" (by decide) (by decide)
    (by decide)).mpr (by decide)

end CertDB
